import Mathlib

/-!
Shallow embedding of src/benchmark.c (CPU cache-effects benchmark).

Machine integers are modelled as Nat; the only place overflow can occur in
the claims under study is in the uint32_t buffer cells of the workloads,
whose updates are taken mod 2 ^ 32 (the constant U32 below).  Bit
operations of the source are kept as Nat bit operations: x & ((1 << 10) - 1)
becomes x &&& ((1 <<< 10) - 1), x >> 10 becomes x >>> 10, and bridge lemmas
relate them to % and /.  Buffers are modelled as total functions from
element index to cell value; each workload additionally records the trace
of element indices it accesses, in program order.
-/

namespace Benchmark

/-- Width of a uint32_t cell: buffer cell updates in the workloads wrap
mod U32. -/
def U32 : Nat := 2 ^ 32

/-- Pointwise store into a buffer modelled as a function from element index
to cell value: upd f i v models f[i] = v. -/
def upd (f : Nat → Nat) (i v : Nat) : Nat → Nat :=
  fun j => if j = i then v else f j

/-- Embedding of bytes_to_prefix, src/benchmark.c lines 43-62.  bytes is the
byte count passed by reference, s the prefix string pointer (none models a
NULL pointer, and the source checks `if (*s)` before any rescaling).  Each
stage mirrors one line, if (!(b & mask)) then b >>= 10 and *s set, of the source,
with mask = (1 << 10) - 1. -/
def bytes_to_prefix (bytes : Nat) (s : Option String) : Nat × Option String :=
  let b := bytes
  let mask := (1 <<< 10) - 1
  match s with
  | none => (b, none)
  | some p =>
    let s1 := if b &&& mask = 0 then (b >>> 10, "k") else (b, p)
    let s2 := if s1.1 &&& mask = 0 then (s1.1 >>> 10, "M") else s1
    let s3 := if s2.1 &&& mask = 0 then (s2.1 >>> 10, "G") else s2
    (s3.1, some s3.2)

/-- Prefix string reached after k successful divisions by 1024; for k = 0
the source leaves the prefix passed by the caller (" ") untouched. -/
def prefixFor : Nat → String
  | 0 => " "
  | 1 => "k"
  | 2 => "M"
  | _ => "G"

lemma and_1023 (x : Nat) : x &&& 1023 = x % 1024 := by
  have h := Nat.and_pow_two_sub_one_eq_mod x 10
  norm_num at h
  exact h

lemma shiftRight_10 (x : Nat) : x >>> 10 = x / 1024 := by
  have h := Nat.shiftRight_eq_div_pow x 10
  norm_num at h
  exact h

/-- Arithmetic form of the bytes_to_prefix cascade: masks and shifts
rewritten to mod and division by 1024. -/
lemma b2p_arith (n : Nat) (p : String) :
    bytes_to_prefix n (some p) =
      (let s1 := if n % 1024 = 0 then (n / 1024, "k") else (n, p)
       let s2 := if s1.1 % 1024 = 0 then (s1.1 / 1024, "M") else s1
       let s3 := if s2.1 % 1024 = 0 then (s2.1 / 1024, "G") else s2
       (s3.1, some s3.2)) := by
  have hm : ((1 <<< 10 : Nat) - 1) = 1023 := by decide
  simp only [ bytes_to_prefix, hm, and_1023, shiftRight_10]

/-- C4: for every input size divisible by 1024^k and not by 1024^(k+1)
(k capped at 3), bytes_to_prefix returns the value divided by 1024^k
together with the prefix for that k in \x7bnone, k, M, G\x7d. -/
theorem benchC4 (n k : Nat) (hk : k ≤ 3)
    (hdvd : 2 ^ (10 * k) ∣ n) (hnd : k < 3 → ¬ 2 ^ (10 * (k + 1)) ∣ n) :
    bytes_to_prefix n (some " ") = (n / 2 ^ (10 * k), some (prefixFor k)) := by
  rw [b2p_arith]
  match k with
  | 0 =>
    have h1 : ¬ (1024 ∣ n) := by
      have := hnd (by omega)
      norm_num at this
      exact this
    rw [Nat.dvd_iff_mod_eq_zero] at h1
    simp [h1, prefixFor]
  | 1 =>
    obtain ⟨m, rfl⟩ := hdvd
    have h2 : ¬ (1048576 ∣ 2 ^ (10 * 1) * m) := by
      have := hnd (by omega)
      norm_num at this ⊢
      omega
    norm_num at h2 ⊢
    rw [Nat.dvd_iff_mod_eq_zero] at h2
    have e1 : 1024 * m % 1024 = 0 := by omega
    have e2 : 1024 * m / 1024 = m := by omega
    have e3 : ¬ (m % 1024 = 0) := by omega
    simp [e1, e2, e3, prefixFor]
  | 2 =>
    obtain ⟨m, rfl⟩ := hdvd
    have h2 : ¬ (2 ^ 30 ∣ 2 ^ (10 * 2) * m) := by
      have := hnd (by omega)
      norm_num at this ⊢
      omega
    norm_num at h2 ⊢
    rw [Nat.dvd_iff_mod_eq_zero] at h2
    have e1 : 1048576 * m % 1024 = 0 := by omega
    have e2 : 1048576 * m / 1024 = 1024 * m := by omega
    have e3 : 1024 * m % 1024 = 0 := by omega
    have e4 : 1024 * m / 1024 = m := by omega
    have e5 : ¬ (m % 1024 = 0) := by omega
    simp [e1, e2, e3, e4, e5, prefixFor]
  | 3 =>
    obtain ⟨m, rfl⟩ := hdvd
    norm_num
    have e1 : 1073741824 * m % 1024 = 0 := by omega
    have e2 : 1073741824 * m / 1024 = 1048576 * m := by omega
    have e3 : 1048576 * m % 1024 = 0 := by omega
    have e4 : 1048576 * m / 1024 = 1024 * m := by omega
    have e5 : 1024 * m % 1024 = 0 := by omega
    have e6 : 1024 * m / 1024 = m := by omega
    simp [e1, e2, e3, e4, e5, e6, prefixFor]
  | k + 4 => omega

/-- C4 witness: the theorem applied at n = 65536, k = 1 (the 64k example
of the spec). -/
theorem benchC4_witness :
    ((1 : Nat) ≤ 3 ∧ 2 ^ (10 * 1) ∣ 65536 ∧
      ((1 : Nat) < 3 → ¬ 2 ^ (10 * (1 + 1)) ∣ 65536)) ∧
    bytes_to_prefix 65536 (some " ") = (64, some "k") := by
  refine ⟨⟨by norm_num, by norm_num, fun _ => by norm_num⟩, ?_⟩
  have h := benchC4 65536 1 (by norm_num) (by norm_num) (fun _ => by norm_num)
  norm_num [prefixFor] at h
  exact h

lemma upd_same (f : Nat → Nat) (i v : Nat) : upd f i v i = v := by
  simp [upd]

lemma upd_ne (f : Nat → Nat) (i v j : Nat) (h : j ≠ i) : upd f i v j = f j := by
  simp [upd, h]

/-- One uint32 increment buf[i]++ of the source, with wrap-around. -/
def inc (f : Nat → Nat) (i : Nat) : Nat → Nat :=
  upd f i ((f i + 1) % U32)

lemma inc_at (f : Nat → Nat) (i : Nat) : inc f i i = (f i + 1) % U32 := by
  simp [inc, upd]

lemma inc_ne (f : Nat → Nat) (i j : Nat) (h : j ≠ i) : inc f i j = f j := by
  simp [inc, upd, h]

/-- Embedding of bench1, src/benchmark.c lines 168-175: the fixed-distance
aliasing workload.  buf maps element index to cell value, L is the buffer
length in elements (lengthMod = L - 1 in the source), N the iteration
count (limit).  Iteration i executes buf[(i * 16) & lengthMod]++; the
recursion peels the last iteration, so bench1 buf L (n+1) runs iterations
0..n.  The second component is the trace of element indices accessed, in
program order. -/
def bench1 (buf : Nat → Nat) (L : Nat) : Nat → (Nat → Nat) × List Nat
  | 0 => (buf, [])
  | n + 1 =>
    (inc (bench1 buf L n).1 ((n * 16) &&& (L - 1)),
     (bench1 buf L n).2 ++ [(n * 16) &&& (L - 1)])

/-- Embedding of bench2, src/benchmark.c lines 177-184: count iterations of
the dependent pair buf[0]++; buf[0]++.  Trace in the second component. -/
def bench2 (buf : Nat → Nat) : Nat → (Nat → Nat) × List Nat
  | 0 => (buf, [])
  | n + 1 =>
    (inc (inc (bench2 buf n).1 0) 0, (bench2 buf n).2 ++ [0, 0])

/-- Embedding of bench3, src/benchmark.c lines 186-193: count iterations of
the independent pair buf[0]++; buf[1]++.  Trace in the second component. -/
def bench3 (buf : Nat → Nat) : Nat → (Nat → Nat) × List Nat
  | 0 => (buf, [])
  | n + 1 =>
    (inc (inc (bench3 buf n).1 0) 1, (bench3 buf n).2 ++ [0, 1])

lemma bench1_trace (buf : Nat → Nat) (L N : Nat) :
    (bench1 buf L N).2 = (List.range N).map (fun i => (i * 16) &&& (L - 1)) := by
  induction N with
  | zero => simp [bench1]
  | succ n ih => simp [bench1, ih, List.range_succ]

lemma bench1_cells (L N j : Nat) :
    (bench1 (fun _ => 0) L N).1 j =
      ((Finset.range N).filter (fun i => (i * 16) &&& (L - 1) = j)).card % U32 := by
  induction N with
  | zero => simp [bench1]
  | succ n ih =>
    have hn : (n : Nat) ∉ (Finset.range n).filter
        (fun i => (i * 16) &&& (L - 1) = j) := by simp
    rw [Finset.range_succ, Finset.filter_insert]
    by_cases h : (n * 16) &&& (L - 1) = j
    · rw [if_pos h]
      show inc (bench1 (fun _ => 0) L n).1 ((n * 16) &&& (L - 1)) j = _
      rw [h, inc_at, ih, Finset.card_insert_of_not_mem hn]
      simp only [U32]
      omega
    · rw [if_neg h]
      show inc (bench1 (fun _ => 0) L n).1 ((n * 16) &&& (L - 1)) j = _
      rw [inc_ne _ _ _ (fun e => h e.symm), ih]

/-- C5: for the fixed-distance aliasing workload with a power-of-two length
L and iteration count N (bounded by the int domain of the source), the
touched offsets are (i * 16) mod L for i in [0, N), and on a
zeroed buffer the final value at each offset j is the number of
i in [0, N) with (i * 16) mod L = j; offsets never hit stay zero. -/
theorem benchC5 (m L N j : Nat) (hL : L = 2 ^ m) (hN : N < 2 ^ 31) :
    (bench1 (fun _ => 0) L N).2 = (List.range N).map (fun i => (i * 16) % L) ∧
    (bench1 (fun _ => 0) L N).1 j =
      ((Finset.range N).filter (fun i => (i * 16) % L = j)).card := by
  have hmask : ∀ x : Nat, x &&& (L - 1) = x % L := by
    intro x
    rw [hL]
    exact Nat.and_pow_two_sub_one_eq_mod x m
  constructor
  · rw [bench1_trace]
    simp [hmask]
  · rw [bench1_cells]
    have hcard : ((Finset.range N).filter (fun i => (i * 16) &&& (L - 1) = j)).card =
        ((Finset.range N).filter (fun i => (i * 16) % L = j)).card := by
      congr 1
      apply Finset.filter_congr
      intro i _
      simp [hmask]
    rw [hcard]
    have hle : ((Finset.range N).filter (fun i => (i * 16) % L = j)).card ≤ N := by
      have h1 := Finset.card_filter_le (Finset.range N) (fun i => (i * 16) % L = j)
      simpa using h1
    apply Nat.mod_eq_of_lt
    simp only [U32]
    omega

/-- C5 witness: the theorem applied at L = 8 = 2^3, N = 5, j = 0; every
iteration touches offset 0 there, so the trace is five zeros and cell 0
ends at 5. -/
theorem benchC5_witness :
    ((8 : Nat) = 2 ^ 3 ∧ (5 : Nat) < 2 ^ 31) ∧
    (bench1 (fun _ => 0) 8 5).2 = [0, 0, 0, 0, 0] ∧
    (bench1 (fun _ => 0) 8 5).1 0 = 5 := by
  refine ⟨⟨by norm_num, by norm_num⟩, ?_, ?_⟩
  · have h := (benchC5 3 8 5 0 (by norm_num) (by norm_num)).1
    rw [h]
    decide
  · have h := (benchC5 3 8 5 0 (by norm_num) (by norm_num)).2
    rw [h]
    decide

lemma bench2_cell0 (N : Nat) :
    (bench2 (fun _ => 0) N).1 0 = (2 * N) % U32 := by
  induction N with
  | zero => simp [bench2]
  | succ n ih =>
    show inc (inc (bench2 (fun _ => 0) n).1 0) 0 0 = _
    rw [inc_at, inc_at, ih]
    simp only [U32]
    omega

lemma bench2_other (N j : Nat) (hj : j ≠ 0) :
    (bench2 (fun _ => 0) N).1 j = 0 := by
  induction N with
  | zero => simp [bench2]
  | succ n ih =>
    show inc (inc (bench2 (fun _ => 0) n).1 0) 0 j = _
    rw [inc_ne _ _ _ hj, inc_ne _ _ _ hj, ih]

lemma bench3_cells (N : Nat) :
    (bench3 (fun _ => 0) N).1 0 = N % U32 ∧
    (bench3 (fun _ => 0) N).1 1 = N % U32 := by
  induction N with
  | zero => simp [bench3]
  | succ n ih =>
    constructor
    · show inc (inc (bench3 (fun _ => 0) n).1 0) 1 0 = _
      rw [inc_ne _ _ _ (by norm_num), inc_at, ih.1]
      simp only [U32]
      omega
    · show inc (inc (bench3 (fun _ => 0) n).1 0) 1 1 = _
      rw [inc_at, inc_ne _ _ _ (by norm_num), ih.2]
      simp only [U32]
      omega

lemma bench3_other (N j : Nat) (hj0 : j ≠ 0) (hj1 : j ≠ 1) :
    (bench3 (fun _ => 0) N).1 j = 0 := by
  induction N with
  | zero => simp [bench3]
  | succ n ih =>
    show inc (inc (bench3 (fun _ => 0) n).1 0) 1 j = _
    rw [inc_ne _ _ _ hj1, inc_ne _ _ _ hj0, ih]

/-- C6: for every iteration count N in the int domain of the source and a
zeroed buffer, the dependent workload bench2 leaves cell 0 at
2 * N and every other cell at zero, and the independent workload bench3
leaves cells 0 and 1 at N and every other cell at zero. -/
theorem benchC6 (N j : Nat) (hN : N < 2 ^ 31) :
    (bench2 (fun _ => 0) N).1 0 = 2 * N ∧
    (j ≠ 0 → (bench2 (fun _ => 0) N).1 j = 0) ∧
    (bench3 (fun _ => 0) N).1 0 = N ∧
    (bench3 (fun _ => 0) N).1 1 = N ∧
    (j ≠ 0 → j ≠ 1 → (bench3 (fun _ => 0) N).1 j = 0) := by
  have h2 : (2 * N) % U32 = 2 * N := by
    apply Nat.mod_eq_of_lt
    simp only [U32]
    omega
  have h1 : N % U32 = N := by
    apply Nat.mod_eq_of_lt
    simp only [U32]
    omega
  refine ⟨?_, ?_, ?_, ?_, ?_⟩
  · rw [bench2_cell0, h2]
  · intro hj
    exact bench2_other N j hj
  · rw [(bench3_cells N).1, h1]
  · rw [(bench3_cells N).2, h1]
  · intro hj0 hj1
    exact bench3_other N j hj0 hj1

/-- C6 witness: the theorem applied at N = 5, j = 7: cell 0 of bench2 ends
at 10, cells 0 and 1 of bench3 end at 5, cell 7 stays 0 in both. -/
theorem benchC6_witness :
    ((5 : Nat) < 2 ^ 31) ∧
    (bench2 (fun _ => 0) 5).1 0 = 10 ∧
    (bench2 (fun _ => 0) 5).1 7 = 0 ∧
    (bench3 (fun _ => 0) 5).1 0 = 5 ∧
    (bench3 (fun _ => 0) 5).1 1 = 5 ∧
    (bench3 (fun _ => 0) 5).1 7 = 0 := by
  have h := benchC6 5 7 (by norm_num)
  exact ⟨by norm_num, h.1, h.2.1 (by norm_num), h.2.2.1, h.2.2.2.1,
    h.2.2.2.2 (by norm_num) (by norm_num)⟩

/-- Embedding of ffs from strings.h as used at src/benchmark.c line 161:
1-based index of the least significant set bit, 0 for input 0. -/
def ffs (n : Nat) : Nat :=
  if h : n = 0 then 0
  else if n % 2 = 1 then 1
  else ffs (n / 2) + 1
termination_by n
decreasing_by
  exact Nat.div_lt_self (Nat.pos_of_ne_zero h) (by norm_num)

lemma ffs_four : ffs 4 = 3 := by
  rw [ffs]
  norm_num
  rw [ffs]
  norm_num
  rw [ffs]
  norm_num

/-- Embedding of the loop of bench, src/benchmark.c lines 164-165: starting
at index i, while i < len do buf[i] *= 3 (uint32 wrap) and i += step.  len
is the length in elements (the byte length is shifted before the loop, see
bench below).  The 0 < step conjunct makes the termination of the source
loop explicit: the driver only calls bench with step ≥ 1, and for step = 0
the source loop would not terminate.  The second component is the trace of
element indices accessed, in program order. -/
def benchLoop (buf : Nat → Nat) (len step i : Nat) : (Nat → Nat) × List Nat :=
  if h : i < len ∧ 0 < step then
    ((benchLoop (upd buf i ((3 * buf i) % U32)) len step (i + step)).1,
     i :: (benchLoop (upd buf i ((3 * buf i) % U32)) len step (i + step)).2)
  else (buf, [])
termination_by len - i
decreasing_by omega

lemma benchLoop_go (buf : Nat → Nat) (len step i : Nat)
    (h1 : i < len) (h2 : 0 < step) :
    benchLoop buf len step i =
      ((benchLoop (upd buf i ((3 * buf i) % U32)) len step (i + step)).1,
       i :: (benchLoop (upd buf i ((3 * buf i) % U32)) len step (i + step)).2) := by
  rw [benchLoop]
  rw [dif_pos (show i < len ∧ 0 < step from ⟨h1, h2⟩)]

lemma benchLoop_stop (buf : Nat → Nat) (len step i : Nat)
    (h : ¬ (i < len ∧ 0 < step)) :
    benchLoop buf len step i = (buf, []) := by
  rw [benchLoop]
  rw [dif_neg h]

lemma benchLoop_cells (len step : Nat) (hs : 0 < step) :
    ∀ d i buf j, len - i ≤ d →
      (benchLoop buf len step i).1 j =
        if i ≤ j ∧ j < len ∧ step ∣ (j - i) then (3 * buf j) % U32 else buf j := by
  intro d
  induction d with
  | zero =>
    intro i buf j hd
    rw [benchLoop_stop _ _ _ _ (by omega)]
    have hni : ¬ (i ≤ j ∧ j < len ∧ step ∣ (j - i)) := by
      rintro ⟨u1, u2, -⟩
      omega
    rw [if_neg hni]
  | succ d ih =>
    intro i buf j hd
    by_cases hil : i < len
    · rw [benchLoop_go _ _ _ _ hil hs]
      show (benchLoop (upd buf i ((3 * buf i) % U32)) len step (i + step)).1 j = _
      rw [ih (i + step) _ j (by omega)]
      by_cases hji : j = i
      · subst hji
        rw [if_neg (by rintro ⟨u1, -, -⟩; omega), upd_same]
        rw [if_pos ⟨le_refl j, hil, by simp⟩]
      · rw [upd_ne buf i ((3 * buf i) % U32) j hji]
        have hiff : (i + step ≤ j ∧ j < len ∧ step ∣ (j - (i + step))) ↔
            (i ≤ j ∧ j < len ∧ step ∣ (j - i)) := by
          constructor
          · rintro ⟨u1, u2, c, hc⟩
            refine ⟨by omega, u2, c + 1, ?_⟩
            rw [Nat.mul_succ]
            generalize step * c = t at hc
            omega
          · rintro ⟨u1, u2, c, hc⟩
            match c with
            | 0 =>
              exfalso
              apply hji
              omega
            | c + 1 =>
              rw [Nat.mul_succ] at hc
              refine ⟨?_, u2, c, ?_⟩
              · generalize step * c = t at hc
                omega
              · generalize hg : step * c = t
                rw [hg] at hc
                omega
        simp only [hiff]
    · rw [benchLoop_stop _ _ _ _ (fun hc => hil hc.1)]
      have hni : ¬ (i ≤ j ∧ j < len ∧ step ∣ (j - i)) := by
        rintro ⟨u1, u2, -⟩
        omega
      rw [if_neg hni]

lemma benchLoop_trace_lt (len step : Nat) :
    ∀ d i buf, len - i ≤ d → ∀ a ∈ (benchLoop buf len step i).2, a < len := by
  intro d
  induction d with
  | zero =>
    intro i buf hd
    by_cases hc : i < len ∧ 0 < step
    · omega
    · rw [benchLoop_stop _ _ _ _ hc]
      intro a ha
      simp at ha
  | succ d ih =>
    intro i buf hd
    by_cases hc : i < len ∧ 0 < step
    · rw [benchLoop_go _ _ _ _ hc.1 hc.2]
      intro a ha
      show a < len
      rcases List.mem_cons.mp ha with rfl | hmem
      · exact hc.1
      · exact ih (i + step) _ (by omega) a hmem
    · rw [benchLoop_stop _ _ _ _ hc]
      intro a ha
      simp at ha

/-- Embedding of bench, src/benchmark.c lines 158-166: length is the byte
length of the buffer; the source computes shift = ffs(sizeof(uint32_t)) - 1
with sizeof(uint32_t) = 4, rescales length to elements by length >>= shift,
and runs the strided loop from index 0. -/
def bench (buf : Nat → Nat) (length step : Nat) : (Nat → Nat) × List Nat :=
  benchLoop buf (length >>> (ffs 4 - 1)) step 0

lemma bench_len (length : Nat) : length >>> (ffs 4 - 1) = length / 4 := by
  rw [ffs_four]
  have h := Nat.shiftRight_eq_div_pow length 2
  norm_num at h
  exact h

/-- C7: for every buffer, byte length, and positive power-of-two step, the
strided scan multiplies by 3 (as a uint32) exactly the cells at indices
0, step, 2 * step, ... below the element count length / 4, and leaves every
other cell unchanged. -/
theorem benchC7 (buf : Nat → Nat) (length m j step : Nat)
    (hstep : step = 2 ^ m) :
    (bench buf length step).1 j =
      if j < length / 4 ∧ step ∣ j then (3 * buf j) % U32 else buf j := by
  have hs : 0 < step := by
    rw [hstep]
    positivity
  unfold bench
  rw [bench_len]
  rw [benchLoop_cells (length / 4) step hs (length / 4) 0 buf j (by omega)]
  simp

/-- C7 witness: the theorem applied at a constant-1 buffer of 16 bytes
(4 elements) and step 1 = 2^0: cell 2 is visited and becomes 3. -/
theorem benchC7_witness :
    ((1 : Nat) = 2 ^ 0) ∧ (bench (fun _ => 1) 16 1).1 2 = 3 := by
  refine ⟨by norm_num, ?_⟩
  have h := benchC7 (fun _ => 1) 16 0 2 1 (by norm_num)
  rw [h]
  norm_num [U32]

/-- Embedding of the page-touch loop of benchmark_prologue, src/benchmark.c
lines 112-119, over a byte buffer modelled as a function from byte offset
to byte value.  Each pass stores back the byte just read,
((unsigned char volatile *)buf)[i] = buf[i], then executes clflush(buf):
the flushed linear address is the BASE of the region (offset 0), not
buf + i.  The loop then breaks if size < pg, else subtracts pg from size,
advances i by pg, and continues while size != 0.  The second component is
the trace of (touched byte offset, flushed byte offset) pairs, in program
order.  The 0 < pg conjunct makes termination explicit: getpagesize() is
always positive, and for pg = 0 with pg ≤ size and size ≠ 0 the source
loop would not terminate. -/
def prologueLoop (buf : Nat → Nat) (pg i size : Nat) :
    (Nat → Nat) × List (Nat × Nat) :=
  if h : pg ≤ size ∧ size - pg ≠ 0 ∧ 0 < pg then
    ((prologueLoop (upd buf i (buf i)) pg (i + pg) (size - pg)).1,
     (i, 0) :: (prologueLoop (upd buf i (buf i)) pg (i + pg) (size - pg)).2)
  else (upd buf i (buf i), [(i, 0)])
termination_by size
decreasing_by omega

/-- Embedding of benchmark_prologue, src/benchmark.c lines 98-126,
restricted to its effect on the region: the touch-and-flush loop starting
at offset 0.  The getrusage and gettimeofday snapshots that follow do not
touch the region. -/
def benchmark_prologue (buf : Nat → Nat) (pg size : Nat) :
    (Nat → Nat) × List (Nat × Nat) :=
  prologueLoop buf pg 0 size

lemma upd_self (buf : Nat → Nat) (i : Nat) : upd buf i (buf i) = buf := by
  funext j
  by_cases h : j = i
  · rw [h, upd_same]
  · rw [upd_ne _ _ _ _ h]

lemma prologueLoop_id (pg : Nat) :
    ∀ d size i buf, size ≤ d → (prologueLoop buf pg i size).1 = buf := by
  intro d
  induction d with
  | zero =>
    intro size i buf hd
    rw [prologueLoop]
    rw [dif_neg (by omega)]
    exact upd_self buf i
  | succ d ih =>
    intro size i buf hd
    rw [prologueLoop]
    by_cases hc : pg ≤ size ∧ size - pg ≠ 0 ∧ 0 < pg
    · rw [dif_pos hc]
      show (prologueLoop (upd buf i (buf i)) pg (i + pg) (size - pg)).1 = buf
      rw [ih (size - pg) (i + pg) _ (by omega), upd_self]
    · rw [dif_neg hc]
      exact upd_self buf i

/-- C9: benchmark_prologue leaves the contents of the region unchanged:
each per-page touch stores back exactly the byte it just read, so the
final buffer equals the initial buffer, for every region, page size and
size. -/
theorem benchC9 (buf : Nat → Nat) (pg size : Nat) :
    (benchmark_prologue buf pg size).1 = buf := by
  unfold benchmark_prologue
  exact prologueLoop_id pg size size 0 buf (le_refl size)

/-- C1: evaluation of the prologue touch-and-flush trace on a two-page
region (page size 4096, region size 8192): the touched byte offsets are
0 and 4096, but both clflush calls are executed on the line at byte
offset 0 (the source passes buf, not buf + i), so the flushed addresses
do not coincide with the touched addresses. -/
theorem benchC1 :
    (benchmark_prologue (fun _ => 0) 4096 8192).2.map Prod.fst = [0, 4096] ∧
    (benchmark_prologue (fun _ => 0) 4096 8192).2.map Prod.snd = [0, 0] ∧
    (4096 : Nat) ≠ 0 := by
  have h1 : benchmark_prologue (fun _ => 0) 4096 8192 =
      ((prologueLoop (upd (fun _ => 0) 0 0) 4096 4096 4096).1,
       (0, 0) :: (prologueLoop (upd (fun _ => 0) 0 0) 4096 4096 4096).2) := by
    unfold benchmark_prologue
    rw [prologueLoop]
    rw [dif_pos (by norm_num)]
  have h2 : prologueLoop (upd (fun _ => 0) 0 0) 4096 4096 4096 =
      (upd (upd (fun _ => 0) 0 0) 4096 (upd (fun _ => 0) 0 0 4096),
       [(4096, 0)]) := by
    rw [prologueLoop]
    rw [dif_neg (by norm_num)]
  rw [h1, h2]
  norm_num

/-- Embedding of the process-environment setup of main, src/benchmark.c
lines 211-220, as a function of the return values of the two OS calls
(0 on success, -1 on failure).  The source calls sched_setaffinity and
DISCARDS its return value (line 213); it then calls sched_setscheduler
and dies (exit 1) iff that call returns nonzero.  The result is true iff
the program aborts before any measurement. -/
def setupAborts (_affinityRet schedRet : Int) : Bool :=
  schedRet != 0

/-- C2 fails on the code, so this evaluates the embedding at the failing
input: with sched_setaffinity failing (-1) and sched_setscheduler
succeeding (0), the program does not abort and proceeds to measure,
although the claim requires an abort whenever either call fails. -/
theorem benchC2 : setupAborts (-1) 0 = false := rfl

lemma bench2_trace (buf : Nat → Nat) (N : Nat) :
    ∀ a ∈ (bench2 buf N).2, a < 2 := by
  induction N with
  | zero =>
    intro a ha
    simp [bench2] at ha
  | succ n ih =>
    intro a ha
    show a < 2
    rcases List.mem_append.mp ha with hmem | hmem
    · exact ih a hmem
    · rcases List.mem_cons.mp hmem with rfl | hmem2
      · norm_num
      · rcases List.mem_cons.mp hmem2 with rfl | hmem3
        · norm_num
        · simp at hmem3

lemma bench3_trace (buf : Nat → Nat) (N : Nat) :
    ∀ a ∈ (bench3 buf N).2, a < 2 := by
  induction N with
  | zero =>
    intro a ha
    simp [bench3] at ha
  | succ n ih =>
    intro a ha
    show a < 2
    rcases List.mem_append.mp ha with hmem | hmem
    · exact ih a hmem
    · rcases List.mem_cons.mp hmem with rfl | hmem2
      · norm_num
      · rcases List.mem_cons.mp hmem2 with rfl | hmem3
        · norm_num
        · simp at hmem3

/-- C10: under the driver preconditions, every buffer access of the four
workloads is in bounds: the strided scan with step ≥ 1 only accesses
indices below the element count length / 4; the aliasing workload with a
power-of-two element length L only accesses indices below L; and the two
increment workloads only access indices 0 and 1 (the driver maps a region
of at least one page, hence at least two elements). -/
theorem benchC10 (buf : Nat → Nat) (length step N L m : Nat)
    (hstep : 0 < step) (hL : L = 2 ^ m) :
    ((bench buf length step).2.all (fun a => decide (a < length / 4)) = true) ∧
    ((bench1 buf L N).2.all (fun a => decide (a < L)) = true) ∧
    ((bench2 buf N).2.all (fun a => decide (a < 2)) = true) ∧
    ((bench3 buf N).2.all (fun a => decide (a < 2)) = true) := by
  simp only [List.all_eq_true, decide_eq_true_eq]
  refine ⟨?_, ?_, bench2_trace buf N, bench3_trace buf N⟩
  · intro a ha
    unfold bench at ha
    rw [bench_len] at ha
    exact benchLoop_trace_lt (length / 4) step (length / 4) 0 buf (by omega) a ha
  · intro a ha
    rw [bench1_trace] at ha
    rcases List.mem_map.mp ha with ⟨i, -, rfl⟩
    have hle : (i * 16) &&& (L - 1) ≤ L - 1 := Nat.and_le_right
    have hpos : 0 < L := by
      rw [hL]
      positivity
    omega

/-- C10 witness: the theorem applied at a zero buffer with byte length 16,
step 1, aliasing length 4 = 2^2 and iteration count 3. -/
theorem benchC10_witness :
    ((0 : Nat) < 1 ∧ (4 : Nat) = 2 ^ 2) ∧
    ((bench (fun _ => 0) 16 1).2.all (fun a => decide (a < 16 / 4)) = true) ∧
    ((bench1 (fun _ => 0) 4 3).2.all (fun a => decide (a < 4)) = true) ∧
    ((bench2 (fun _ => 0) 3).2.all (fun a => decide (a < 2)) = true) ∧
    ((bench3 (fun _ => 0) 3).2.all (fun a => decide (a < 2)) = true) := by
  have h := benchC10 (fun _ => 0) 16 1 3 4 2 (by norm_num) (by norm_num)
  exact ⟨⟨by norm_num, by norm_num⟩, h.1, h.2.1, h.2.2.1, h.2.2.2⟩

/-- Region-lifecycle events of the driver: a memory-map call with its byte
size, an unmap call, and the printing of one report line with its
sweep-step value. -/
inductive Ev where
  | map (sz : Nat)
  | unmap
  | report (step : Nat)
deriving DecidableEq

def isMap : Ev → Bool
  | .map _ => true
  | _ => false

def isUnmap : Ev → Bool
  | .unmap => true
  | _ => false

def isReport : Ev → Bool
  | .report _ => true
  | _ => false

/-- GIGABYTES from src/benchmark.c line 30. -/
def GIGABYTES (x : Nat) : Nat := x <<< 30

/-- MEGABYTES from src/benchmark.c line 31. -/
def MEGABYTES (x : Nat) : Nat := x <<< 20

/-- KILOBYTES from src/benchmark.c line 32. -/
def KILOBYTES (x : Nat) : Nat := x <<< 10

/-- Geometric sweep of the driver loops, for (step = s; step <= limit;
step <<= 1): the list of successive step values.  The 0 < s conjunct makes
termination explicit; both driver sweeps start from a positive step. -/
def sweepSteps (s limit : Nat) : List Nat :=
  if h : 0 < s ∧ s ≤ limit then s :: sweepSteps (s * 2) limit else []
termination_by limit + 1 - s
decreasing_by omega

/-- Region-lifecycle trace of Example 2, src/benchmark.c lines 224-234:
one 64 MB map, thirteen stride steps each printing one report, one
unmap after the whole sweep. -/
def exp2Trace : List Ev :=
  [Ev.map (MEGABYTES 64)] ++ (sweepSteps 1 4096).map Ev.report ++ [Ev.unmap]

/-- Region-lifecycle trace of Example 3, src/benchmark.c lines 238-251:
per sweep step, one map of length * sizeof(uint32_t) bytes with
length = step >> (ffs(sizeof(uint32_t)) - 1), one report, one unmap. -/
def exp3Trace : List Ev :=
  (sweepSteps (KILOBYTES 1) (GIGABYTES 1)).flatMap
    (fun step => [Ev.map ((step >>> (ffs 4 - 1)) * 4), Ev.report step, Ev.unmap])

/-- Region-lifecycle trace of Example 4, src/benchmark.c lines 255-266:
one page-sized map, the bench2 report (step label 1), the bench3 report
(step label 2), one unmap. -/
def exp4Trace (pg : Nat) : List Ev :=
  [Ev.map pg, Ev.report 1, Ev.report 2, Ev.unmap]

/-- Region-lifecycle trace of main, src/benchmark.c lines 196-268,
parametric in the page size pg = getpagesize(). -/
def driverTrace (pg : Nat) : List Ev :=
  exp2Trace ++ exp3Trace ++ exp4Trace pg

/-- Decidable rendering of claim C3 on an event trace: the trace is a
sequence of per-iteration blocks, each consisting of exactly one map, the
report line of that iteration, and the matching unmap before the
iteration ends. -/
def perIterationLifecycle : List Ev → Bool
  | [] => true
  | Ev.map _ :: Ev.report _ :: Ev.unmap :: rest => perIterationLifecycle rest
  | _ => false

def countEv (p : Ev → Bool) (t : List Ev) : Nat := (t.filter p).length

/-- Map/unmap discipline over a trace, with o the number of currently
mapped regions: every unmap has a region to unmap and at the end of the
trace nothing stays mapped. -/
def nestedOk : Nat → List Ev → Bool
  | o, [] => o == 0
  | o, Ev.map _ :: rest => nestedOk (o + 1) rest
  | o, Ev.unmap :: rest => (o != 0) && nestedOk (o - 1) rest
  | o, Ev.report _ :: rest => nestedOk o rest

lemma sweep2_eval : sweepSteps 1 4096 =
    [1, 2, 4, 8, 16, 32, 64, 128, 256, 512, 1024, 2048, 4096] := by
  simp [sweepSteps]

lemma sweep3_eval : sweepSteps (KILOBYTES 1) (GIGABYTES 1) =
    [1024, 2048, 4096, 8192, 16384, 32768, 65536, 131072, 262144, 524288,
     1048576, 2097152, 4194304, 8388608, 16777216, 33554432, 67108864,
     134217728, 268435456, 536870912, 1073741824] := by
  simp [sweepSteps, KILOBYTES, GIGABYTES]

/-- C3 counterexample: on the driver trace (page size 4096) the claimed
per-iteration map/report/unmap discipline fails: Example 2 maps a single
region before its thirteen-step sweep, so already the third event is a
second report line with no unmap in between. -/
theorem benchC3_counterexample :
    perIterationLifecycle (driverTrace 4096) = false := by
  simp only [driverTrace, exp2Trace, sweep2_eval]
  rfl

/-- C3 amended: Example 3 does follow the per-iteration discipline (one
map, one report, one matching unmap per sweep step), but Example 2 maps
one region for its entire thirteen-step sweep and Example 4 maps one
region for both of its report lines; overall the run performs 23 maps
and 23 matching unmaps against 36 report lines, every unmap has a mapped
region, and no region stays mapped when the run completes. -/
theorem benchC3 (pg : Nat) :
    countEv isMap (driverTrace pg) = 23 ∧
    countEv isUnmap (driverTrace pg) = 23 ∧
    countEv isReport (driverTrace pg) = 36 ∧
    nestedOk 0 (driverTrace pg) = true ∧
    perIterationLifecycle exp3Trace = true ∧
    countEv isMap exp2Trace = 1 ∧
    countEv isMap (exp4Trace pg) = 1 := by
  refine ⟨?_, ?_, ?_, ?_, ?_, ?_, ?_⟩ <;>
    · simp only [driverTrace, exp2Trace, exp3Trace, exp4Trace,
        sweep2_eval, sweep3_eval, ffs_four]
      rfl

/-- Resource-usage snapshot fields used by the harness, struct rusage:
major faults, minor faults, voluntary and involuntary context switches. -/
structure Rusage where
  ru_majflt : Nat
  ru_minflt : Nat
  ru_nvcsw : Nat
  ru_nivcsw : Nat

/-- Right-justified decimal rendering of n in a field of width w, as
printf %wlu / %wzu does for nonnegative values. -/
def padNum (w n : Nat) : String :=
  let s := toString n
  String.mk (List.replicate (w - s.length) ' ') ++ s

def optStr : Option String → String
  | none => ""
  | some p => p

/-- Embedding of the output formatting of benchmark_epilogue,
src/benchmark.c lines 132-150: prefix starts as " ", step is rescaled by
bytes_to_prefix, and one line is printed with the printf format
step: %4zu%s, diff: %6lu(us) hf: %2lu, sf %2lu, nvcs: %1lu, nivcs: %2lu
followed by a newline, where the four counters are the differences
between the end snapshot eu and the start snapshot su.  diff is the
elapsed time already computed by timediff. -/
def benchmark_epilogue (stepArg : Nat) (su eu : Rusage) (diff : Nat) : String :=
  let r := bytes_to_prefix stepArg (some " ")
  "step: " ++ padNum 4 r.1 ++ optStr r.2 ++ ", diff: " ++ padNum 6 diff ++
    "(us) hf: " ++ padNum 2 (eu.ru_majflt - su.ru_majflt) ++ ", sf " ++
    padNum 2 (eu.ru_minflt - su.ru_minflt) ++ ", nvcs: " ++
    padNum 1 (eu.ru_nvcsw - su.ru_nvcsw) ++ ", nivcs: " ++
    padNum 2 (eu.ru_nivcsw - su.ru_nivcsw) ++ "\n"

/-- Modelled from the spec: the report-line template exactly as claim C8
and spec section 6 state it, with the same field paddings as the source
printf so that the comparison is modulo field-width padding only.  The
template of the claim has no comma between the major-fault field and the
sf label, and none between the nvcs field and the nivcs label. -/
def specLineClaim (stepArg : Nat) (su eu : Rusage) (diff : Nat) : String :=
  let r := bytes_to_prefix stepArg (some " ")
  "step: " ++ padNum 4 r.1 ++ optStr r.2 ++ ", diff: " ++ padNum 6 diff ++
    "(us) hf: " ++ padNum 2 (eu.ru_majflt - su.ru_majflt) ++ " sf " ++
    padNum 2 (eu.ru_minflt - su.ru_minflt) ++ ", nvcs: " ++
    padNum 1 (eu.ru_nvcsw - su.ru_nvcsw) ++ " nivcs: " ++
    padNum 2 (eu.ru_nivcsw - su.ru_nivcsw) ++ "\n"

/-- Modelled from the spec as amended: the claim template corrected by the
two commas the source actually prints, after the hf field and after the
nvcs field. -/
def specLineAmended (stepArg : Nat) (su eu : Rusage) (diff : Nat) : String :=
  let r := bytes_to_prefix stepArg (some " ")
  "step: " ++ padNum 4 r.1 ++ optStr r.2 ++ ", diff: " ++ padNum 6 diff ++
    "(us) hf: " ++ padNum 2 (eu.ru_majflt - su.ru_majflt) ++ ", sf " ++
    padNum 2 (eu.ru_minflt - su.ru_minflt) ++ ", nvcs: " ++
    padNum 1 (eu.ru_nvcsw - su.ru_nvcsw) ++ ", nivcs: " ++
    padNum 2 (eu.ru_nivcsw - su.ru_nivcsw) ++ "\n"

/-- C8 counterexample: at inputs wide enough that every field padding is
empty (step 1000, deltas 12, 34, 5, 67, diff 123456), the line printed by
the epilogue differs from the claim template: the source prints a comma
after the hf value and after the nvcs value, the claim template has
none. -/
theorem benchC8_counterexample :
    benchmark_epilogue 1000 ⟨0, 0, 0, 0⟩ ⟨12, 34, 5, 67⟩ 123456 ≠
    specLineClaim 1000 ⟨0, 0, 0, 0⟩ ⟨12, 34, 5, 67⟩ 123456 := by
  decide

/-- C8 amended: every report line emitted by the epilogue matches,
character for character, the template
step: V U, diff: D(us) hf: HF, sf SF, nvcs: NV, nivcs: NI
with commas after the HF and NV fields as the source prints them, where
the four counters are the deltas between the end and begin snapshots. -/
theorem benchC8 (stepArg : Nat) (su eu : Rusage) (diff : Nat) :
    benchmark_epilogue stepArg su eu diff = specLineAmended stepArg su eu diff := rfl

end Benchmark
